import Mathlib

/-!
# Verification of the gameday-poster-bot notification batching engine

A shallow embedding, in Lean 4, of the notification scheduling and batching
core of the `mariners_bot` package:

* `src/mariners_bot/models/transaction.py` — `TransactionType`, `Transaction`
  (type lookup, batch-message summary);
* `src/mariners_bot/models/user_preferences.py` —
  `UserTransactionPreferences.should_notify_for_transaction`;
* `src/mariners_bot/scheduler/transaction_scheduler.py` —
  `TransactionNotificationBatcher` (batching decision, pending buffers,
  sweep, priority grouping and batch splitting);
* `src/mariners_bot/main.py` — `_handle_user_transaction_notification`
  (the per-user routing of one transaction through the batcher);
* `src/mariners_bot/bot/telegram_bot.py` — `_send_message_with_retry`
  (retry loop with rate-limit and exponential-backoff waits).

Timestamps are modelled as integer seconds (`Int`); Python `dict`s keyed by
chat id are modelled as association lists with first-match lookup and
replace-first update, which agrees with `dict` semantics on every state
whose keys are distinct (every state the code builds).
-/

namespace MarinersBot

/-- Association-list lookup: first entry whose key matches.  Models Python
`d[k]` / `k in d` for a `dict` built with distinct keys. -/
def alookup [DecidableEq κ] : List (κ × α) → κ → Option α
  | [], _ => none
  | (k, v) :: rest, c => if k = c then some v else alookup rest c

/-- Association-list update: replace the first entry with the given key, or
append a fresh entry.  Models Python `d[k] = v`. -/
def aset [DecidableEq κ] (key : κ) (v : α) : List (κ × α) → List (κ × α)
  | [] => [(key, v)]
  | (k, w) :: rest => if k = key then (key, v) :: rest else (k, w) :: aset key v rest

/-- `TransactionType` enum, `models/transaction.py` lines 9–26. -/
inductive TransactionType where
  | TRADE
  | SIGNED_FREE_AGENT
  | STATUS_CHANGE
  | SELECTED
  | RECALLED
  | OPTIONED
  | DESIGNATED
  | RELEASED
  | SUSPENDED
  | PURCHASED
  | CLAIMED
  | REINSTATED
  | INJURED_LIST
  | ACTIVATED
  | OTHER
  deriving DecidableEq

/-- The enum's value table: the Python expression `TransactionType(code)`
looks the string `code` up among the members' values and raises `ValueError`
when none matches.  `models/transaction.py` lines 12–26. -/
def codeTable : List (String × TransactionType) :=
  [("TR", .TRADE), ("SFA", .SIGNED_FREE_AGENT), ("SC", .STATUS_CHANGE),
   ("SEL", .SELECTED), ("REC", .RECALLED), ("OPT", .OPTIONED),
   ("DES", .DESIGNATED), ("REL", .RELEASED), ("SUS", .SUSPENDED),
   ("PUR", .PURCHASED), ("CLA", .CLAIMED), ("REI", .REINSTATED),
   ("IL", .INJURED_LIST), ("ACT", .ACTIVATED), ("OTH", .OTHER)]

/-- The fifteen known MLB type codes (the enum members' values). -/
def knownTypeCodes : List String := codeTable.map Prod.fst

/-- `Transaction`, `models/transaction.py` lines 29–48, restricted to the
fields the batching core reads.  Dates are integer day numbers. -/
structure Transaction where
  transaction_id : Int
  person_name : String
  transaction_date : Int
  effective_date : Option Int := none
  type_code : String
  type_description : String
  description : String
  deriving DecidableEq

/-- `Transaction.transaction_type`, `models/transaction.py` lines 50–56:
`TransactionType(self.type_code)` with the `ValueError` of an unknown code
caught and turned into `TransactionType.OTHER`. -/
def Transaction.transactionType (t : Transaction) : TransactionType :=
  (alookup codeTable t.type_code).getD .OTHER

/-- `UserTransactionPreferences`, `models/user_preferences.py` lines 8–25. -/
structure UserTransactionPreferences where
  chat_id : Int
  trades : Bool := true
  signings : Bool := true
  recalls : Bool := true
  options : Bool := true
  injuries : Bool := true
  activations : Bool := true
  releases : Bool := false
  status_changes : Bool := false
  other : Bool := false
  major_league_only : Bool := true
  deriving DecidableEq

/-- ASCII lowercasing of one character; on the keyword set in play this is
what Python `str.lower()` computes. -/
def toLowerChar (c : Char) : Char :=
  if 'A' ≤ c ∧ c ≤ 'Z' then Char.ofNat (c.toNat + 32) else c

/-- Is `needle` an initial segment of `hay`? -/
def startsWithChars : List Char → List Char → Bool
  | [], _ => true
  | _ :: _, [] => false
  | a :: as, b :: bs => if a = b then startsWithChars as bs else false

/-- Is `needle` a contiguous substring of `hay`?  Models Python's
`needle in hay` on strings. -/
def containsChars : List Char → List Char → Bool
  | needle, [] => needle.isEmpty
  | needle, c :: rest => startsWithChars needle (c :: rest) || containsChars needle rest

/-- The fixed minor-league keyword set, `user_preferences.py` line 32. -/
def minorLeagueTerms : List String :=
  ["minor league", "triple-a", "double-a", "single-a", "rookie"]

/-- Does the lowercased description contain a minor-league keyword?
`user_preferences.py` lines 30–33. -/
def containsMinorLeagueTerm (description : String) : Bool :=
  let descriptionLower := description.data.map toLowerChar
  minorLeagueTerms.any fun term => containsChars term.data descriptionLower

/-- The subtype→preference lookup table of
`should_notify_for_transaction`, `user_preferences.py` lines 36–52.  The
Python dict maps every enum member, so the `.get(_, self.other)` fallback
on line 54 is unreachable; the total match realises the same table. -/
def UserTransactionPreferences.typePreference
    (p : UserTransactionPreferences) : TransactionType → Bool
  | .TRADE => p.trades
  | .SIGNED_FREE_AGENT => p.signings
  | .RECALLED => p.recalls
  | .OPTIONED => p.options
  | .INJURED_LIST => p.injuries
  | .ACTIVATED => p.activations
  | .RELEASED => p.releases
  | .STATUS_CHANGE => p.status_changes
  | .SELECTED => p.recalls
  | .DESIGNATED => p.status_changes
  | .SUSPENDED => p.status_changes
  | .PURCHASED => p.signings
  | .CLAIMED => p.signings
  | .REINSTATED => p.activations
  | .OTHER => p.other

/-- `UserTransactionPreferences.should_notify_for_transaction`,
`user_preferences.py` lines 27–54. -/
def UserTransactionPreferences.shouldNotifyForTransaction
    (p : UserTransactionPreferences) (transactionType : TransactionType)
    (description : String) : Bool :=
  if p.major_league_only && containsMinorLeagueTerm description then false
  else p.typePreference transactionType

/-- Is the transaction in the high-priority set `{TRADE, SIGNED_FREE_AGENT}`?
`transaction_scheduler.py` line 204. -/
def isHighPriority (t : Transaction) : Bool :=
  match t.transactionType with
  | .TRADE | .SIGNED_FREE_AGENT => true
  | _ => false

/-- Is the transaction in the medium-priority set
`{RECALLED, ACTIVATED, INJURED_LIST, OPTIONED}`?
`transaction_scheduler.py` lines 205–208. -/
def isMediumPriority (t : Transaction) : Bool :=
  match t.transactionType with
  | .RECALLED | .ACTIVATED | .INJURED_LIST | .OPTIONED => true
  | _ => false

/-- Falls through both the `if` and the `elif` of the grouping loop. -/
def isLowPriority (t : Transaction) : Bool :=
  !isHighPriority t && !isMediumPriority t

/-- The three priority groups returned (as a dict) by
`group_transactions_by_priority`. -/
structure PriorityGroups where
  high_priority : List Transaction
  medium_priority : List Transaction
  low_priority : List Transaction
  deriving DecidableEq

/-- `TransactionNotificationBatcher.group_transactions_by_priority`,
`transaction_scheduler.py` lines 195–218: one pass over the input appending
each transaction to exactly one group, so arrival order is kept inside each
group. -/
def groupTransactionsByPriority : List Transaction → PriorityGroups
  | [] => ⟨[], [], []⟩
  | t :: ts =>
    let g := groupTransactionsByPriority ts
    if isHighPriority t then ⟨t :: g.high_priority, g.medium_priority, g.low_priority⟩
    else if isMediumPriority t then ⟨g.high_priority, t :: g.medium_priority, g.low_priority⟩
    else ⟨g.high_priority, g.medium_priority, t :: g.low_priority⟩

/-- `TransactionNotificationBatcher.should_separate_batch`,
`transaction_scheduler.py` lines 220–230. -/
def shouldSeparateBatch (transactions : List Transaction) : Bool :=
  let groups := groupTransactionsByPriority transactions
  (!groups.high_priority.isEmpty && !groups.low_priority.isEmpty)
    || decide (transactions.length > 5)

/-- The `while len(medium_low) > 5` loop of `split_transactions_for_batching`
(`transaction_scheduler.py` lines 250–256): successive chunks of five, then
whatever remains, and nothing at all for an empty list.
One pass of the loop consumes one unit of `fuel`; the loop body drops five
elements each time, so `fuel := xs.length` always suffices and the
fuel-exhausted branch is never the effective one. -/
def chunksOfFiveAux : Nat → List Transaction → List (List Transaction)
  | 0, xs => if xs.isEmpty then [] else [xs]
  | fuel + 1, xs =>
    if 5 < xs.length then xs.take 5 :: chunksOfFiveAux fuel (xs.drop 5)
    else if xs.isEmpty then [] else [xs]

/-- The chunking loop started with enough fuel for its list. -/
def chunksOfFive (xs : List Transaction) : List (List Transaction) :=
  chunksOfFiveAux xs.length xs

/-- `TransactionNotificationBatcher.split_transactions_for_batching`,
`transaction_scheduler.py` lines 232–258. -/
def splitTransactionsForBatching (transactions : List Transaction) :
    List (List Transaction) :=
  if transactions.length ≤ 1 then
    if transactions.isEmpty then [] else [transactions]
  else if !shouldSeparateBatch transactions then [transactions]
  else
    let groups := groupTransactionsByPriority transactions
    let batches := if groups.high_priority.isEmpty then [] else [groups.high_priority]
    batches ++ chunksOfFive (groups.medium_priority ++ groups.low_priority)

/-- `TransactionNotificationBatcher` state, `transaction_scheduler.py`
lines 121–125: the window in minutes, `pending_transactions` and
`last_notification_time` (both dicts keyed by chat id; times in seconds). -/
structure Batcher where
  batchWindowMinutes : Int
  pendingTransactions : List (Int × List Transaction)
  lastNotificationTime : List (Int × Int)
  deriving DecidableEq

/-- `TransactionNotificationBatcher.should_batch_notification`,
`transaction_scheduler.py` lines 127–144.  `now` is the value of
`datetime.now()` in seconds.  The `transaction` argument is taken (as in the
source) but never read. -/
def Batcher.shouldBatchNotification (b : Batcher) (now : Int) (chatId : Int)
    (_transaction : Transaction) : Bool :=
  match alookup b.lastNotificationTime chatId with
  | none => false
  | some lastNotification =>
    if now - lastNotification > b.batchWindowMinutes * 60 then false
    else
      match alookup b.pendingTransactions chatId with
      | some pending => !pending.isEmpty
      | none => false

/-- `TransactionNotificationBatcher.add_transaction_to_batch`,
`transaction_scheduler.py` lines 146–152. -/
def Batcher.addTransactionToBatch (b : Batcher) (chatId : Int)
    (t : Transaction) : Batcher :=
  { b with
    pendingTransactions :=
      aset chatId ((alookup b.pendingTransactions chatId).getD [] ++ [t])
        b.pendingTransactions }

/-- `TransactionNotificationBatcher.get_and_clear_batch`,
`transaction_scheduler.py` lines 154–163. -/
def Batcher.getAndClearBatch (b : Batcher) (chatId : Int) :
    List Transaction × Batcher :=
  match alookup b.pendingTransactions chatId with
  | none => ([], b)
  | some pending =>
    (pending, { b with pendingTransactions := aset chatId [] b.pendingTransactions })

/-- `TransactionNotificationBatcher.mark_notification_sent`,
`transaction_scheduler.py` lines 165–167. -/
def Batcher.markNotificationSent (b : Batcher) (chatId : Int) (now : Int) : Batcher :=
  { b with lastNotificationTime := aset chatId now b.lastNotificationTime }

/-- `TransactionNotificationBatcher.get_users_with_pending_batches`,
`transaction_scheduler.py` lines 169–193.  The loop skips empty buffers and
then decides purely on `last_notification_time`: a recipient is collected
when at least `batch_window` has elapsed since its last notification, or when
it has no recorded notification time at all.  (The `oldest_transaction` age
computed on lines 179–182 of the source is assigned to a local variable that
the rest of the function never reads, so it does not appear here.) -/
def Batcher.getUsersWithPendingBatches (b : Batcher) (now : Int) : List Int :=
  (b.pendingTransactions.filter fun p =>
    !p.2.isEmpty &&
      match alookup b.lastNotificationTime p.1 with
      | some lastTime => decide (now - lastTime ≥ b.batchWindowMinutes * 60)
      | none => true).map Prod.fst

/-- `MarinersBot._handle_user_transaction_notification`, `main.py`
lines 312–347, on its successful-delivery path: if the batcher says to
batch, the transaction is appended to the pending buffer and nothing is
sent; otherwise the pending buffer is drained and delivered together with
the new transaction in one message, and the send time is recorded.  The
returned `Option` is the list of transactions delivered, `none` when the
event was only buffered.  (The emitted message of a non-empty transaction
list is never the empty string, so the `if message:` guard of line 328 is
passed whenever a send happens here.) -/
def handleUserTransactionNotification (b : Batcher) (now : Int) (chatId : Int)
    (t : Transaction) : Batcher × Option (List Transaction) :=
  if b.shouldBatchNotification now chatId t then
    (b.addTransactionToBatch chatId t, none)
  else
    let (pendingBatch, b1) := b.getAndClearBatch chatId
    (b1.markNotificationSent chatId now, some (pendingBatch ++ [t]))

/-- Routing a timed sequence of arrivals for one recipient through
`_handle_user_transaction_notification`, collecting every delivered
message's transaction list in order. -/
def handleArrivals (b : Batcher) (chatId : Int) :
    List (Int × Transaction) → Batcher × List (List Transaction)
  | [] => (b, [])
  | (now, t) :: rest =>
    let (b1, sent) := handleUserTransactionNotification b now chatId t
    let (b2, sents) := handleArrivals b1 chatId rest
    (b2, sent.toList ++ sents)

/-- The `type_counts` dict of `format_batch_notification_message`,
`models/transaction.py` lines 160–163: counts per `type_description`, keyed
in first-seen order. -/
def bumpCount : List (String × Nat) → String → List (String × Nat)
  | [], d => [(d, 1)]
  | (d', c) :: rest, d =>
    if d' = d then (d', c + 1) :: rest else (d', c) :: bumpCount rest d

/-- First-seen-ordered type counts of a transaction list. -/
def typeCounts (transactions : List Transaction) : List (String × Nat) :=
  transactions.foldl (fun acc t => bumpCount acc t.type_description) []

/-- Lexicographic strict order on character lists by code point: exactly
Python's `<` on `str` (for the code-point range in play). -/
def charListLt : List Char → List Char → Bool
  | [], [] => false
  | [], _ :: _ => true
  | _ :: _, [] => false
  | a :: as, b :: bs => if a < b then true else if a = b then charListLt as bs else false

/-- `a ≤ b` on strings as Python's `sorted` compares them. -/
def strLeB (a b : String) : Bool := !charListLt b.data a.data

/-- Sorting key order on `(type_description, count)` items: by key only —
the keys of `type_counts` are distinct, so Python's tuple comparison never
reaches the counts. -/
def itemLe (a b : String × Nat) : Prop := strLeB a.1 b.1 = true

instance : DecidableRel itemLe := fun a b => instDecidableEqBool (strLeB a.1 b.1) true

/-- `sorted(type_counts.items())`, `models/transaction.py` line 167: the
items sorted ascending by key.  Insertion sort by the string order produces
the same list as any comparison sort does on distinct keys. -/
def sortedTypeCounts (transactions : List Transaction) : List (String × Nat) :=
  List.insertionSort itemLe (typeCounts transactions)

/-- The `summary_parts` list of `format_batch_notification_message`,
`models/transaction.py` lines 166–171: one part per distinct type, the bare
label when its count is 1 and `"{count} {label}s"` otherwise. -/
def summaryParts (transactions : List Transaction) : List String :=
  (sortedTypeCounts transactions).map fun p =>
    if p.2 = 1 then p.1 else toString p.2 ++ " " ++ p.1 ++ "s"

/-- Outcome of one `bot.send_message` call as seen by
`_send_message_with_retry`: success, Telegram's `RetryAfter` (carrying the
cooldown in seconds), another `TelegramError`, or an unexpected exception. -/
inductive SendOutcome where
  | success
  | rateLimited (retryAfterSeconds : Nat)
  | telegramError
  | unexpectedError
  deriving DecidableEq

/-- What a run of `_send_message_with_retry` did: whether it returned
`True`, how many attempts it made, and the `asyncio.sleep` durations it
performed, in order. -/
structure SendResult where
  ok : Bool
  attempts : Nat
  sleeps : List Nat
  deriving DecidableEq

/-- The `for attempt in range(max_retries)` loop of
`TelegramBot._send_message_with_retry`, `telegram_bot.py` lines 553–614.
`outcomes n` is what the send call raises (or not) on the attempt with
zero-based index `n`; `fuel` is the number of loop iterations left and
`sleeps` accumulates waits in reverse.  A `RetryAfter` sleeps
`retry_after + 1` seconds and a generic `TelegramError` sleeps
`2 ^ attempt` seconds — both only when another iteration remains, and both
consume the same loop counter. -/
def sendLoop (outcomes : Nat → SendOutcome) :
    Nat → Nat → List Nat → SendResult
  | 0, attempt, sleeps => ⟨false, attempt, sleeps.reverse⟩
  | fuel + 1, attempt, sleeps =>
    match outcomes attempt with
    | .success => ⟨true, attempt + 1, sleeps.reverse⟩
    | .rateLimited r =>
      if 0 < fuel then sendLoop outcomes fuel (attempt + 1) ((r + 1) :: sleeps)
      else ⟨false, attempt + 1, sleeps.reverse⟩
    | .telegramError =>
      if 0 < fuel then sendLoop outcomes fuel (attempt + 1) ((2 ^ attempt) :: sleeps)
      else ⟨false, attempt + 1, sleeps.reverse⟩
    | .unexpectedError => ⟨false, attempt + 1, sleeps.reverse⟩

/-- `TelegramBot._send_message_with_retry` with `max_retries` attempts. -/
def sendMessageWithRetry (outcomes : Nat → SendOutcome) (maxRetries : Nat) :
    SendResult :=
  sendLoop outcomes maxRetries 0 []

/-! ## Supporting lemmas -/

theorem alookup_eq_none_of_not_mem [DecidableEq κ] (l : List (κ × α)) (c : κ)
    (h : c ∉ l.map Prod.fst) : alookup l c = none := by
  induction l with
  | nil => rfl
  | cons p rest ih =>
    simp only [List.map_cons, List.mem_cons, not_or] at h
    simp only [alookup]
    rw [if_neg (fun hk => h.1 hk.symm)]
    exact ih h.2

theorem alookup_aset_self [DecidableEq κ] (l : List (κ × α)) (k : κ) (v : α) :
    alookup (aset k v l) k = some v := by
  induction l with
  | nil => simp [aset, alookup]
  | cons p rest ih =>
    by_cases hk : p.1 = k
    · simp [aset, hk, alookup]
    · simp only [aset]
      rw [if_neg hk]
      simp only [alookup]
      rw [if_neg hk]
      exact ih

/-! ## Sample transactions used in witnesses and counterexamples -/

/-- A concrete transaction with the given id, type code, type label and
description. -/
def sampleT (id : Int) (code typeDesc desc : String) : Transaction :=
  { transaction_id := id, person_name := "Julio Rodriguez", transaction_date := 20,
    type_code := code, type_description := typeDesc, description := desc }

def tradeT : Transaction := sampleT 1 "TR" "Trade" "Traded to the Seattle Mariners."
def activatedT : Transaction := sampleT 2 "ACT" "Activated" "Activated from the injured list."
def statusT : Transaction := sampleT 3 "SC" "Status Change" "Status change."

/-- Preferences with every subtype switched on and `major_league_only` set. -/
def allOnPrefs : UserTransactionPreferences :=
  { chat_id := 1, trades := true, signings := true, recalls := true,
    options := true, injuries := true, activations := true, releases := true,
    status_changes := true, other := true, major_league_only := true }

/-! ## C6 — major_only filter overrides subtype preference -/

/-- C6: whenever `major_league_only` is set and the (case-insensitively
lowercased) description contains one of the fixed minor-league keywords,
`should_notify_for_transaction` returns `false`, whatever the
subtype-specific preference booleans say. -/
theorem major_only_blocks_minor_league (p : UserTransactionPreferences)
    (transactionType : TransactionType) (description : String)
    (hMajor : p.major_league_only = true)
    (hTerm : containsMinorLeagueTerm description = true) :
    p.shouldNotifyForTransaction transactionType description = false := by
  simp [UserTransactionPreferences.shouldNotifyForTransaction, hMajor, hTerm]

/-- C6 witness: all subtype preferences on (in particular the one for
trades), description mentioning "Triple-A": the notification is blocked. -/
theorem major_only_blocks_minor_league_witness :
    allOnPrefs.major_league_only = true ∧
    allOnPrefs.typePreference .TRADE = true ∧
    allOnPrefs.shouldNotifyForTransaction .TRADE "Recalled to Triple-A Tacoma" = false :=
  ⟨rfl, rfl,
    major_only_blocks_minor_league allOnPrefs .TRADE "Recalled to Triple-A Tacoma"
      rfl (by decide)⟩

/-! ## C9 — transaction_type is total with OTHER fallback -/

/-- C9: `Transaction.transaction_type` is a total function (in Lean by
construction — the Python `try/except ValueError` never escapes), and on any
`type_code` outside the fifteen known MLB codes it returns
`TransactionType.OTHER`. -/
theorem transaction_type_total_fallback (t : Transaction)
    (h : t.type_code ∉ knownTypeCodes) : t.transactionType = .OTHER := by
  unfold Transaction.transactionType
  rw [alookup_eq_none_of_not_mem codeTable t.type_code h]
  rfl

/-- C9 witness: the unknown code `"ZZZ"` maps to `OTHER`. -/
theorem transaction_type_total_fallback_witness :
    ("ZZZ" ∉ knownTypeCodes) ∧
    (sampleT 9 "ZZZ" "Mystery" "Unknown move.").transactionType = .OTHER :=
  ⟨by decide, transaction_type_total_fallback _ (by decide)⟩

/-! ## C8 — rate-limit handling in the send retry loop -/

/-- C8 counterexample: three rate-limit signals in a row exhaust the
3-attempt ceiling — after two waits of `retry_after + 1 = 31` seconds the
loop gives up with `False` having used all three attempts.  This refutes
the claim that rate-limited retries are *not* counted against the same
3-attempt schedule as generic transient errors: they consume the very same
loop counter. -/
theorem rate_limit_counts_against_attempts :
    sendMessageWithRetry (fun _ => .rateLimited 30) 3 =
      { ok := false, attempts := 3, sleeps := [31, 31] } := by decide

/-- C8 amended: a rate-limit outcome makes the sender wait exactly
`retry_after + 1` seconds (so at least the cooldown plus a one-second
buffer) before the next attempt, but such retries are charged to the same
3-attempt ceiling as generic errors.  With `RetryAfter` on the first
attempt: if the second attempt succeeds the run ends `True` after exactly
2 attempts with the single wait `r0 + 1`; if instead every attempt is rate
limited, the run ends `False` after exactly 3 attempts. -/
theorem rate_limit_wait_and_budget (outcomes : Nat → SendOutcome)
    (r0 r1 r2 : Nat) (h0 : outcomes 0 = .rateLimited r0) :
    (outcomes 1 = .success →
      sendMessageWithRetry outcomes 3 = { ok := true, attempts := 2, sleeps := [r0 + 1] }) ∧
    (outcomes 1 = .rateLimited r1 → outcomes 2 = .rateLimited r2 →
      sendMessageWithRetry outcomes 3 =
        { ok := false, attempts := 3, sleeps := [r0 + 1, r1 + 1] }) := by
  constructor
  · intro h1
    simp [sendMessageWithRetry, sendLoop, h0, h1]
  · intro h1 h2
    simp [sendMessageWithRetry, sendLoop, h0, h1, h2]

/-- C8 witness: `RetryAfter(30)` on the first attempt, success on the
second: the sender sleeps 31 seconds and ends with exactly 2 attempts. -/
theorem rate_limit_wait_and_budget_witness :
    sendMessageWithRetry (fun n => if n = 0 then .rateLimited 30 else .success) 3 =
      { ok := true, attempts := 2, sleeps := [31] } :=
  (rate_limit_wait_and_budget (fun n => if n = 0 then .rateLimited 30 else .success)
    30 0 0 rfl).1 rfl

/-! ## C3 — the batching predicate -/

/-- C3: `should_batch_notification` returns `true` exactly when the
recipient has a recorded last notification time, at most `batch_window`
has elapsed since it, and the recipient's pending buffer exists and is
non-empty.  Consequently, for a recipient with no recorded last
notification time (in particular on the first event ever routed to the
batcher) it returns `false` and the handler delivers immediately — the new
transaction together with whatever was pending (nothing, on a first
event). -/
theorem should_batch_iff (b : Batcher) (now chatId : Int) (t : Transaction) :
    (b.shouldBatchNotification now chatId t = true ↔
      ((∃ last, alookup b.lastNotificationTime chatId = some last ∧
          now - last ≤ b.batchWindowMinutes * 60) ∧
        ∃ pending, alookup b.pendingTransactions chatId = some pending ∧
          pending ≠ [])) ∧
    (alookup b.lastNotificationTime chatId = none →
      b.shouldBatchNotification now chatId t = false ∧
      (handleUserTransactionNotification b now chatId t).2 =
        some ((alookup b.pendingTransactions chatId).getD [] ++ [t])) := by
  have hmain : b.shouldBatchNotification now chatId t = true ↔
      ((∃ last, alookup b.lastNotificationTime chatId = some last ∧
          now - last ≤ b.batchWindowMinutes * 60) ∧
        ∃ pending, alookup b.pendingTransactions chatId = some pending ∧
          pending ≠ []) := by
    unfold Batcher.shouldBatchNotification
    cases hl : alookup b.lastNotificationTime chatId with
    | none => simp
    | some last =>
      dsimp only
      by_cases hw : now - last > b.batchWindowMinutes * 60
      · rw [if_pos hw]
        simp only [Bool.false_eq_true, false_iff]
        rintro ⟨⟨last', hlast', hle⟩, -⟩
        cases hlast'
        omega
      · rw [if_neg hw]
        cases hp : alookup b.pendingTransactions chatId with
        | none => simp
        | some pending =>
          simp only [Bool.not_eq_true', List.isEmpty_eq_false, ne_eq]
          constructor
          · intro hne
            exact ⟨⟨last, rfl, by omega⟩, pending, rfl, hne⟩
          · rintro ⟨_, pending', hp', hne⟩
            cases hp'
            exact hne
  refine ⟨hmain, fun hl => ?_⟩
  have hfalse : b.shouldBatchNotification now chatId t = false := by
    unfold Batcher.shouldBatchNotification
    rw [hl]
  refine ⟨hfalse, ?_⟩
  unfold handleUserTransactionNotification
  rw [hfalse]
  simp only [Bool.false_eq_true, if_false]
  unfold Batcher.getAndClearBatch
  cases hp : alookup b.pendingTransactions chatId <;> simp

/-! ## C2 — the sweep operation -/

/-- C2 amended: `get_users_with_pending_batches` returns exactly the
recipients with a non-empty pending buffer for which either no last
notification time is recorded or at least `batch_window` has elapsed since
that last notification.  The ages of the pending events themselves play no
part: the oldest-transaction age computed inside the source loop is never
read. -/
theorem sweep_characterization (b : Batcher) (now c : Int) :
    c ∈ b.getUsersWithPendingBatches now ↔
      ∃ pending, (c, pending) ∈ b.pendingTransactions ∧ pending ≠ [] ∧
        (alookup b.lastNotificationTime c = none ∨
          ∃ last, alookup b.lastNotificationTime c = some last ∧
            now - last ≥ b.batchWindowMinutes * 60) := by
  unfold Batcher.getUsersWithPendingBatches
  simp only [List.mem_map, List.mem_filter]
  constructor
  · rintro ⟨⟨c', pending⟩, ⟨hmem, hcond⟩, rfl⟩
    simp only [Bool.and_eq_true, Bool.not_eq_true', List.isEmpty_eq_false] at hcond
    refine ⟨pending, hmem, hcond.1, ?_⟩
    rcases hcond with ⟨-, hrest⟩
    cases hl : alookup b.lastNotificationTime c' with
    | none => exact Or.inl rfl
    | some last =>
      rw [hl] at hrest
      exact Or.inr ⟨last, rfl, of_decide_eq_true hrest⟩
  · rintro ⟨pending, hmem, hne, hcase⟩
    refine ⟨(c, pending), ⟨hmem, ?_⟩, rfl⟩
    simp only [Bool.and_eq_true, Bool.not_eq_true', List.isEmpty_eq_false]
    refine ⟨hne, ?_⟩
    rcases hcase with hl | ⟨last, hl, hge⟩
    · rw [hl]
    · rw [hl]
      exact decide_eq_true hge

/-- The sweep state of the C2 counterexample: batch window 10 minutes, one
recipient (chat 7) holding a single pending transaction dated today
(`transaction_date = 20`, the current date in the scenario, so the pending
event's age by the source's own day-based measure is 0 minutes, far below
the window), whose last notification was at time 0. -/
def sweepCexBatcher : Batcher :=
  { batchWindowMinutes := 10,
    pendingTransactions := [(7, [tradeT])],
    lastNotificationTime := [(7, 0)] }

/-- C2 counterexample: at `now = 1200` s (20 minutes after the last flush)
the sweep returns chat 7 although its only pending event is dated the
current day — every pending event is younger than `batch_window`, which by
the claim should keep the recipient out of the result.  The sweep looks
only at `last_notification_time`. -/
theorem sweep_ignores_event_ages :
    sweepCexBatcher.getUsersWithPendingBatches 1200 = [7] ∧
    sweepCexBatcher.pendingTransactions = [(7, [tradeT])] ∧
    tradeT.transaction_date = 20 := by decide

/-! ## Priority classifier lemmas -/

theorem isMediumPriority_eq_false_of_high (t : Transaction)
    (h : isHighPriority t = true) : isMediumPriority t = false := by
  unfold isHighPriority at h
  unfold isMediumPriority
  generalize hx : t.transactionType = x at h ⊢
  cases x <;> simp_all

theorem isLowPriority_eq_false_of_high (t : Transaction)
    (h : isHighPriority t = true) : isLowPriority t = false := by
  simp [isLowPriority, h]

theorem isLowPriority_eq_false_of_medium (t : Transaction)
    (h : isMediumPriority t = true) : isLowPriority t = false := by
  simp [isLowPriority, h]

/-- The one-pass grouping loop computes the three stable filters of its
input. -/
theorem groupByPriority_eq_filters (ts : List Transaction) :
    groupTransactionsByPriority ts =
      ⟨ts.filter isHighPriority, ts.filter isMediumPriority,
        ts.filter isLowPriority⟩ := by
  induction ts with
  | nil => rfl
  | cons t ts ih =>
    unfold groupTransactionsByPriority
    rw [ih]
    by_cases hH : isHighPriority t
    · have hM := isMediumPriority_eq_false_of_high t hH
      have hL := isLowPriority_eq_false_of_high t hH
      simp [List.filter_cons, hH, hM, hL]
    · by_cases hM : isMediumPriority t
      · have hL := isLowPriority_eq_false_of_medium t hM
        simp [List.filter_cons, hH, hM, hL]
      · have hL : isLowPriority t = true := by
          simp [isLowPriority, hH, hM]
        simp [List.filter_cons, hH, hM, hL]

/-- The three priority filters concatenated are a permutation of the
input. -/
theorem filters_priority_perm (ts : List Transaction) :
    (ts.filter isHighPriority ++
      (ts.filter isMediumPriority ++ ts.filter isLowPriority)).Perm ts := by
  induction ts with
  | nil => rfl
  | cons t ts ih =>
    by_cases hH : isHighPriority t
    · have hM := isMediumPriority_eq_false_of_high t hH
      have hL := isLowPriority_eq_false_of_high t hH
      simp only [List.filter_cons, hH, hM, hL, if_true, if_false,
        Bool.false_eq_true, List.cons_append]
      exact ih.cons t
    · by_cases hM : isMediumPriority t
      · have hL := isLowPriority_eq_false_of_medium t hM
        simp only [List.filter_cons, hH, hM, hL, if_true, if_false,
          Bool.false_eq_true]
        refine List.Perm.trans ?_ (ih.cons t)
        simp only [List.cons_append, List.append_assoc] at *
        exact
          (@List.perm_middle _ t (ts.filter isHighPriority)
            (ts.filter isMediumPriority ++ ts.filter isLowPriority))
      · have hL : isLowPriority t = true := by simp [isLowPriority, hH, hM]
        simp only [List.filter_cons, hH, hM, hL, if_true, if_false,
          Bool.false_eq_true]
        refine List.Perm.trans ?_ (ih.cons t)
        refine List.Perm.trans
          (List.Perm.append_left (ts.filter isHighPriority)
            (List.Perm.append_left (ts.filter isMediumPriority) (List.Perm.refl _))) ?_
        refine List.Perm.trans
          (List.Perm.append_left (ts.filter isHighPriority)
            (@List.perm_middle _ t (ts.filter isMediumPriority)
              (ts.filter isLowPriority))) ?_
        simp only [List.cons_append, List.append_assoc] at *
        exact
          (@List.perm_middle _ t (ts.filter isHighPriority)
            (ts.filter isMediumPriority ++ ts.filter isLowPriority))

theorem chunksOfFiveAux_join (fuel : Nat) :
    ∀ xs : List Transaction, xs.length ≤ fuel → (chunksOfFiveAux fuel xs).flatten = xs := by
  induction fuel with
  | zero =>
    intro xs h
    have : xs = [] := List.eq_nil_of_length_eq_zero (Nat.le_zero.mp h)
    subst this
    rfl
  | succ fuel ih =>
    intro xs h
    unfold chunksOfFiveAux
    by_cases h5 : 5 < xs.length
    · rw [if_pos h5]
      have hdrop : (xs.drop 5).length ≤ fuel := by
        rw [List.length_drop]
        omega
      simp only [List.flatten_cons, ih (xs.drop 5) hdrop, List.take_append_drop]
    · rw [if_neg h5]
      by_cases he : xs.isEmpty
      · rw [if_pos he]
        rw [List.isEmpty_iff] at he
        simp [he]
      · rw [if_neg he]
        simp

theorem chunksOfFive_join (xs : List Transaction) : (chunksOfFive xs).flatten = xs :=
  chunksOfFiveAux_join xs.length xs le_rfl

theorem chunksOfFiveAux_ne_nil (fuel : Nat) :
    ∀ xs (b : List Transaction), b ∈ chunksOfFiveAux fuel xs → b ≠ [] := by
  induction fuel with
  | zero =>
    intro xs b hb
    unfold chunksOfFiveAux at hb
    by_cases he : xs.isEmpty
    · rw [if_pos he] at hb
      cases hb
    · rw [if_neg he] at hb
      rw [List.mem_singleton] at hb
      subst hb
      simpa [List.isEmpty_iff] using he
  | succ fuel ih =>
    intro xs b hb
    unfold chunksOfFiveAux at hb
    by_cases h5 : 5 < xs.length
    · rw [if_pos h5] at hb
      rcases List.mem_cons.mp hb with hb | hb
      · subst hb
        intro hnil
        have := congrArg List.length hnil
        rw [List.length_take] at this
        simp only [List.length_nil] at this
        omega
      · exact ih (xs.drop 5) b hb
    · rw [if_neg h5] at hb
      by_cases he : xs.isEmpty
      · rw [if_pos he] at hb
        cases hb
      · rw [if_neg he] at hb
        rw [List.mem_singleton] at hb
        subst hb
        simpa [List.isEmpty_iff] using he

theorem chunksOfFiveAux_nonempty (fuel : Nat) (xs : List Transaction)
    (h : xs ≠ []) : chunksOfFiveAux fuel xs ≠ [] := by
  have he : xs.isEmpty = false := by simpa [List.isEmpty_iff] using h
  cases fuel with
  | zero => simp [chunksOfFiveAux, he]
  | succ fuel =>
    unfold chunksOfFiveAux
    by_cases h5 : 5 < xs.length
    · simp [h5]
    · simp [h5, he]

theorem chunksOfFiveAux_two_le (fuel : Nat) (xs : List Transaction)
    (h5 : 5 < xs.length) (hf : xs.length ≤ fuel) :
    2 ≤ (chunksOfFiveAux fuel xs).length := by
  cases fuel with
  | zero => omega
  | succ fuel =>
    unfold chunksOfFiveAux
    rw [if_pos h5]
    have hdrop : xs.drop 5 ≠ [] := by
      intro hnil
      have := congrArg List.length hnil
      rw [List.length_drop] at this
      simp at this
      omega
    have := chunksOfFiveAux_nonempty fuel (xs.drop 5) hdrop
    have hlen : 1 ≤ (chunksOfFiveAux fuel (xs.drop 5)).length :=
      List.length_pos.mpr this
    simp only [List.length_cons]
    omega

/-- The split decision restated over the filters. -/
theorem shouldSeparateBatch_iff (ts : List Transaction) :
    shouldSeparateBatch ts = true ↔
      ((ts.filter isHighPriority ≠ [] ∧ ts.filter isLowPriority ≠ []) ∨
        5 < ts.length) := by
  unfold shouldSeparateBatch
  rw [groupByPriority_eq_filters]
  simp [List.isEmpty_eq_false, -List.filter_eq_nil_iff]

/-- The split path, written over the filters. -/
theorem split_eq_of_sep (ts : List Transaction) (h1 : 1 < ts.length)
    (h2 : shouldSeparateBatch ts = true) :
    splitTransactionsForBatching ts =
      (if ts.filter isHighPriority = [] then []
        else [ts.filter isHighPriority]) ++
      chunksOfFive (ts.filter isMediumPriority ++ ts.filter isLowPriority) := by
  unfold splitTransactionsForBatching
  rw [if_neg (by omega), if_neg (by simp [h2]), groupByPriority_eq_filters]
  by_cases hH : ts.filter isHighPriority = []
  · simp [hH]
  · have : (ts.filter isHighPriority).isEmpty = false := by
      simpa [List.isEmpty_iff] using hH
    simp [this, hH]

theorem isHighPriority_eq_false_of_medium (t : Transaction)
    (h : isMediumPriority t = true) : isHighPriority t = false := by
  cases hH : isHighPriority t with
  | false => rfl
  | true => rw [isMediumPriority_eq_false_of_high t hH] at h; cases h

theorem isHighPriority_eq_false_of_low (t : Transaction)
    (h : isLowPriority t = true) : isHighPriority t = false := by
  unfold isLowPriority at h
  simp only [Bool.and_eq_true, Bool.not_eq_true'] at h
  exact h.1

theorem isMediumPriority_eq_false_of_low (t : Transaction)
    (h : isLowPriority t = true) : isMediumPriority t = false := by
  unfold isLowPriority at h
  simp only [Bool.and_eq_true, Bool.not_eq_true'] at h
  exact h.2

theorem filter_filter_self (p : Transaction → Bool) (ts : List Transaction) :
    (ts.filter p).filter p = ts.filter p :=
  List.filter_eq_self.mpr fun _ ha => List.of_mem_filter ha

theorem filter_filter_nil (p q : Transaction → Bool) (ts : List Transaction)
    (h : ∀ t, q t = true → p t = false) : (ts.filter q).filter p = [] :=
  List.filter_eq_nil_iff.mpr fun a ha => by
    rw [h a (List.of_mem_filter ha)]
    simp

/-! ## C5 — the classifier preserves the input -/

/-- C5: concatenating the batches returned by
`split_transactions_for_batching` reproduces the input as a multiset (no
event dropped, none duplicated), and within each priority tier the original
arrival order is kept (the filter of the concatenation by each tier
predicate equals the filter of the input).  On the split path the output is
the High-tier batch (when the High tier is non-empty) followed by the
Medium-then-Low events chunked in order into consecutive groups of at most
five; in particular the first batch is exactly the High-tier events
whenever that tier is non-empty. -/
theorem split_preserves_transactions (ts : List Transaction) :
    ((splitTransactionsForBatching ts).flatten).Perm ts ∧
    ((splitTransactionsForBatching ts).flatten.filter isHighPriority
        = ts.filter isHighPriority ∧
      (splitTransactionsForBatching ts).flatten.filter isMediumPriority
        = ts.filter isMediumPriority ∧
      (splitTransactionsForBatching ts).flatten.filter isLowPriority
        = ts.filter isLowPriority) ∧
    (1 < ts.length → shouldSeparateBatch ts = true →
      splitTransactionsForBatching ts =
        (if ts.filter isHighPriority = [] then []
          else [ts.filter isHighPriority]) ++
        chunksOfFive (ts.filter isMediumPriority ++ ts.filter isLowPriority)) ∧
    (1 < ts.length → shouldSeparateBatch ts = true →
      ts.filter isHighPriority ≠ [] →
      (splitTransactionsForBatching ts).head? = some (ts.filter isHighPriority)) := by
  have hflat : (splitTransactionsForBatching ts).flatten =
      if 1 < ts.length ∧ shouldSeparateBatch ts = true then
        ts.filter isHighPriority ++
          (ts.filter isMediumPriority ++ ts.filter isLowPriority)
      else ts := by
    by_cases h1 : ts.length ≤ 1
    · rw [if_neg (by omega)]
      unfold splitTransactionsForBatching
      rw [if_pos h1]
      by_cases he : ts.isEmpty
      · rw [if_pos he, List.isEmpty_iff.mp he]
        rfl
      · rw [if_neg he]
        simp
    · by_cases h2 : shouldSeparateBatch ts
      · rw [if_pos ⟨by omega, h2⟩, split_eq_of_sep ts (by omega) h2,
          List.flatten_append, chunksOfFive_join]
        by_cases hH : ts.filter isHighPriority = []
        · rw [if_pos hH, hH]
          simp
        · rw [if_neg hH]
          simp
      · rw [if_neg (by tauto)]
        unfold splitTransactionsForBatching
        rw [if_neg h1, if_pos (by simp [h2])]
        simp
  refine ⟨?_, ⟨?_, ?_, ?_⟩, fun h1 h2 => split_eq_of_sep ts (by omega) h2, ?_⟩
  · rw [hflat]
    by_cases hc : 1 < ts.length ∧ shouldSeparateBatch ts = true
    · rw [if_pos hc]
      exact filters_priority_perm ts
    · rw [if_neg hc]
  · rw [hflat]
    by_cases hc : 1 < ts.length ∧ shouldSeparateBatch ts = true
    · rw [if_pos hc, List.filter_append, List.filter_append,
        filter_filter_self, filter_filter_nil _ _ _ isHighPriority_eq_false_of_medium,
        filter_filter_nil _ _ _ isHighPriority_eq_false_of_low]
      simp
    · rw [if_neg hc]
  · rw [hflat]
    by_cases hc : 1 < ts.length ∧ shouldSeparateBatch ts = true
    · rw [if_pos hc, List.filter_append, List.filter_append,
        filter_filter_self, filter_filter_nil _ _ _ isMediumPriority_eq_false_of_high,
        filter_filter_nil _ _ _ isMediumPriority_eq_false_of_low]
      simp
    · rw [if_neg hc]
  · rw [hflat]
    by_cases hc : 1 < ts.length ∧ shouldSeparateBatch ts = true
    · rw [if_pos hc, List.filter_append, List.filter_append,
        filter_filter_self, filter_filter_nil _ _ _ isLowPriority_eq_false_of_high,
        filter_filter_nil _ _ _ isLowPriority_eq_false_of_medium]
      simp
    · rw [if_neg hc]
  · intro h1 h2 hH
    rw [split_eq_of_sep ts (by omega) h2, if_neg hH]
    rfl

/-! ## C4 — the split decision -/

/-- C4 amended: the split condition of `should_separate_batch` is exactly
"(High tier non-empty and Low tier non-empty) or more than five events",
the empty input yields no batch, a single event yields exactly one batch
containing it, and an input the condition rejects comes back as one batch
in its original order.  However the output actually has more than one
batch exactly when the condition holds AND not every event is High-tier:
when the condition holds but all events are High-priority (more than five
trades, say) the whole input still comes back as a single batch. -/
theorem split_decision_iff (ts : List Transaction) :
    (1 < (splitTransactionsForBatching ts).length ↔
      (shouldSeparateBatch ts = true ∧ ts.all isHighPriority = false)) ∧
    (shouldSeparateBatch ts = true ↔
      ((ts.filter isHighPriority ≠ [] ∧ ts.filter isLowPriority ≠ []) ∨
        5 < ts.length)) ∧
    (ts = [] → splitTransactionsForBatching ts = []) ∧
    (∀ t, ts = [t] → splitTransactionsForBatching ts = [[t]]) ∧
    (shouldSeparateBatch ts = false → ts ≠ [] →
      splitTransactionsForBatching ts = [ts]) := by
  have hlenPerm : (ts.filter isHighPriority).length +
      ((ts.filter isMediumPriority).length + (ts.filter isLowPriority).length) =
      ts.length := by
    have := (filters_priority_perm ts).length_eq
    simpa using this
  refine ⟨?_, shouldSeparateBatch_iff ts, ?_, ?_, ?_⟩
  · constructor
    · intro h
      by_cases h1 : ts.length ≤ 1
      · exfalso
        unfold splitTransactionsForBatching at h
        rw [if_pos h1] at h
        by_cases he : ts.isEmpty
        · rw [if_pos he] at h
          simp at h
        · rw [if_neg he] at h
          simp at h
      · by_cases h2 : shouldSeparateBatch ts
        · refine ⟨h2, ?_⟩
          by_contra hall
          rw [Bool.not_eq_false] at hall
          have hM : ts.filter isMediumPriority = [] :=
            List.filter_eq_nil_iff.mpr fun a ha => by
              rw [isMediumPriority_eq_false_of_high a (List.all_eq_true.mp hall a ha)]
              simp
          have hL : ts.filter isLowPriority = [] :=
            List.filter_eq_nil_iff.mpr fun a ha => by
              rw [isLowPriority_eq_false_of_high a (List.all_eq_true.mp hall a ha)]
              simp
          have hHts : ts.filter isHighPriority = ts :=
            List.filter_eq_self.mpr fun a ha => List.all_eq_true.mp hall a ha
          rw [split_eq_of_sep ts (by omega) h2, hM, hL, hHts] at h
          have hne : ts ≠ [] := by
            intro hnil
            rw [hnil] at h1
            simp at h1
          rw [if_neg hne] at h
          simp [chunksOfFive, chunksOfFiveAux] at h
        · exfalso
          unfold splitTransactionsForBatching at h
          rw [if_neg h1, if_pos (by simp [h2])] at h
          simp at h
    · rintro ⟨h2, hall⟩
      have h1 : 1 < ts.length := by
        rcases (shouldSeparateBatch_iff ts).mp h2 with ⟨hH, hL⟩ | h5
        · have hHl : 1 ≤ (ts.filter isHighPriority).length :=
            List.length_pos.mpr hH
          have hLl : 1 ≤ (ts.filter isLowPriority).length :=
            List.length_pos.mpr hL
          omega
        · omega
      obtain ⟨w, hw, hwlow⟩ := List.all_eq_false.mp hall
      have hMLne : ts.filter isMediumPriority ++ ts.filter isLowPriority ≠ [] := by
        intro hnil
        rcases List.append_eq_nil.mp hnil with ⟨hMn, hLn⟩
        by_cases hwM : isMediumPriority w
        · exact absurd (List.mem_filter.mpr ⟨hw, hwM⟩) (by rw [hMn]; simp)
        · have hwL : isLowPriority w = true := by
            simp [isLowPriority, hwlow, hwM]
          exact absurd (List.mem_filter.mpr ⟨hw, hwL⟩) (by rw [hLn]; simp)
      rw [split_eq_of_sep ts h1 h2]
      by_cases hH : ts.filter isHighPriority = []
      · rw [if_pos hH]
        have h5 : 5 < ts.length := by
          rcases (shouldSeparateBatch_iff ts).mp h2 with ⟨hHne, _⟩ | h5
          · exact absurd hH hHne
          · exact h5
        have hlen5 : 5 < (ts.filter isMediumPriority ++ ts.filter isLowPriority).length := by
          rw [List.length_append]
          rw [hH] at hlenPerm
          simp at hlenPerm
          omega
        have := chunksOfFiveAux_two_le
          (ts.filter isMediumPriority ++ ts.filter isLowPriority).length
          (ts.filter isMediumPriority ++ ts.filter isLowPriority) hlen5 le_rfl
        unfold chunksOfFive
        simp only [List.nil_append]
        omega
      · rw [if_neg hH]
        have := chunksOfFiveAux_nonempty
          (ts.filter isMediumPriority ++ ts.filter isLowPriority).length
          (ts.filter isMediumPriority ++ ts.filter isLowPriority) hMLne
        have hpos : 1 ≤ (chunksOfFive
            (ts.filter isMediumPriority ++ ts.filter isLowPriority)).length :=
          List.length_pos.mpr this
        simp only [List.length_append, List.length_cons, List.length_nil]
        omega
  · intro h
    subst h
    rfl
  · intro t h
    subst h
    rfl
  · intro h2 hne
    unfold splitTransactionsForBatching
    by_cases h1 : ts.length ≤ 1
    · rw [if_pos h1, if_neg (by simpa [List.isEmpty_iff] using hne)]
    · rw [if_neg h1, if_pos (by simp [h2])]

/-- Six trades: every event High-tier and more than five events in all. -/
def sixTrades : List Transaction := List.replicate 6 tradeT

/-- C4 counterexample: with six High-tier events the split condition holds
(count exceeds five), yet `split_transactions_for_batching` returns a
single batch — the High group is emitted as one unit and the Medium+Low
group is empty — refuting "splits into multiple batches if … the total
event count exceeds 5". -/
theorem six_trades_single_batch :
    shouldSeparateBatch sixTrades = true ∧
    5 < sixTrades.length ∧
    splitTransactionsForBatching sixTrades = [sixTrades] := by decide

/-! ## C10 — no empty batch is ever emitted -/

/-- C10: every batch returned by `split_transactions_for_batching` is
non-empty, so no batch could ever render as an empty message. -/
theorem split_batches_nonempty (ts b : List Transaction)
    (h : b ∈ splitTransactionsForBatching ts) : b ≠ [] := by
  by_cases h1 : ts.length ≤ 1
  · unfold splitTransactionsForBatching at h
    rw [if_pos h1] at h
    by_cases he : ts.isEmpty
    · rw [if_pos he] at h
      cases h
    · rw [if_neg he] at h
      rw [List.mem_singleton] at h
      subst h
      simpa [List.isEmpty_iff] using he
  · by_cases h2 : shouldSeparateBatch ts
    · rw [split_eq_of_sep ts (by omega) h2] at h
      rcases List.mem_append.mp h with h | h
      · by_cases hH : ts.filter isHighPriority = []
        · rw [if_pos hH] at h
          cases h
        · rw [if_neg hH] at h
          rw [List.mem_singleton] at h
          subst h
          exact hH
      · exact chunksOfFiveAux_ne_nil _ _ b h
    · unfold splitTransactionsForBatching at h
      rw [if_neg h1, if_pos (by simp [h2])] at h
      rw [List.mem_singleton] at h
      subst h
      intro hnil
      rw [hnil] at h1
      simp at h1

/-- C10 witness: on the mixed input `[trade, status-change]` the split
yields `[[trade], [status-change]]` and the theorem applies to its first
batch. -/
theorem split_batches_nonempty_witness : [tradeT] ≠ ([] : List Transaction) :=
  split_batches_nonempty [tradeT, statusT] [tradeT] (by decide)

/-! ## C7 — the multi-event summary line -/

theorem charListLt_iff_lex (a : List Char) :
    ∀ b, charListLt a b = true ↔ List.Lex (· < ·) a b := by
  induction a with
  | nil =>
    intro b
    cases b with
    | nil =>
      simp only [charListLt, Bool.false_eq_true, false_iff]
      intro h
      cases h
    | cons y ys =>
      simp only [charListLt, true_iff]
      exact List.Lex.nil
  | cons x xs ih =>
    intro b
    cases b with
    | nil =>
      simp only [charListLt, Bool.false_eq_true, false_iff]
      intro h
      cases h
    | cons y ys =>
      unfold charListLt
      by_cases hxy : x < y
      · simp only [hxy, if_true, true_iff]
        exact List.Lex.rel hxy
      · rw [if_neg hxy]
        by_cases hxe : x = y
        · subst hxe
          rw [if_pos rfl, ih ys]
          constructor
          · exact List.Lex.cons
          · intro h
            cases h with
            | cons h => exact h
            | rel h => exact absurd h (lt_irrefl x)
        · rw [if_neg hxe]
          simp only [Bool.false_eq_true, false_iff]
          intro h
          cases h with
          | cons h => exact hxe rfl
          | rel h => exact hxy h

theorem strLeB_total (a b : String) : strLeB a b = true ∨ strLeB b a = true := by
  unfold strLeB
  by_cases h : charListLt b.data a.data = true
  · right
    have hlex := (charListLt_iff_lex b.data a.data).mp h
    have hnot : ¬ List.Lex (· < ·) a.data b.data := asymm hlex
    have : charListLt a.data b.data = false := by
      rw [← Bool.not_eq_true, charListLt_iff_lex]
      exact hnot
    simp [this]
  · left
    rw [Bool.not_eq_true] at h
    simp [h]

/-- The strict total order on `List Char` under lexicographic `<`. -/
def lexCharSTO : IsStrictTotalOrder (List Char) (List.Lex (· < ·)) := inferInstance

theorem strLeB_trans (a b c : String) (h1 : strLeB a b = true)
    (h2 : strLeB b c = true) : strLeB a c = true := by
  unfold strLeB at *
  rw [Bool.not_eq_true'] at h1 h2 ⊢
  by_contra hca
  rw [Bool.not_eq_false, charListLt_iff_lex] at hca
  have hba : ¬ List.Lex (· < ·) b.data a.data := by
    rw [← charListLt_iff_lex]
    simp [h1]
  have hcb : ¬ List.Lex (· < ·) c.data b.data := by
    rw [← charListLt_iff_lex]
    simp [h2]
  rcases lexCharSTO.trichotomous c.data b.data with h | h | h
  · exact hcb h
  · rw [h] at hca
    exact hba hca
  · exact hba (IsTrans.trans _ _ _ h hca)

instance : IsTotal (String × Nat) itemLe :=
  ⟨fun a b => strLeB_total a.1 b.1⟩

instance : IsTrans (String × Nat) itemLe :=
  ⟨fun a b c h1 h2 => strLeB_trans a.1 b.1 c.1 h1 h2⟩

theorem bumpCount_alookup_self (acc : List (String × Nat)) (d : String) :
    alookup (bumpCount acc d) d = some ((alookup acc d).getD 0 + 1) := by
  induction acc with
  | nil => simp [bumpCount, alookup]
  | cons p rest ih =>
    obtain ⟨e, c⟩ := p
    by_cases h : e = d
    · subst h
      simp [bumpCount, alookup]
    · simp only [bumpCount, alookup, h, if_false, if_neg h]
      exact ih

theorem bumpCount_alookup_other (acc : List (String × Nat)) (d e : String)
    (h : e ≠ d) : alookup (bumpCount acc d) e = alookup acc e := by
  induction acc with
  | nil =>
    simp only [bumpCount, alookup]
    rw [if_neg (fun hh => h hh.symm)]
  | cons p rest ih =>
    obtain ⟨f, c⟩ := p
    by_cases hf : f = d
    · subst hf
      simp only [bumpCount, alookup, if_pos rfl]
      rw [if_neg (fun hh => h hh.symm), if_neg (fun hh => h hh.symm)]
    · simp only [bumpCount, alookup, if_neg hf]
      by_cases hfe : f = e
      · rw [if_pos hfe, if_pos hfe]
      · rw [if_neg hfe, if_neg hfe]
        exact ih

theorem mem_keys_bumpCount (acc : List (String × Nat)) (d x : String) :
    x ∈ (bumpCount acc d).map Prod.fst ↔ x ∈ acc.map Prod.fst ∨ x = d := by
  induction acc with
  | nil => simp [bumpCount]
  | cons p rest ih =>
    obtain ⟨f, c⟩ := p
    by_cases hf : f = d
    · subst hf
      simp only [bumpCount, eq_self_iff_true, if_true, List.map_cons, List.mem_cons]
      tauto
    · simp only [bumpCount, if_neg hf, List.map_cons, List.mem_cons, ih]
      tauto

theorem nodup_keys_bumpCount (acc : List (String × Nat)) (d : String)
    (h : (acc.map Prod.fst).Nodup) : ((bumpCount acc d).map Prod.fst).Nodup := by
  induction acc with
  | nil => simp [bumpCount]
  | cons p rest ih =>
    obtain ⟨f, c⟩ := p
    simp only [List.map_cons, List.nodup_cons] at h
    by_cases hf : f = d
    · subst hf
      simp only [bumpCount, eq_self_iff_true, if_true, List.map_cons, List.nodup_cons]
      exact h
    · simp only [bumpCount, if_neg hf, List.map_cons, List.nodup_cons,
        mem_keys_bumpCount]
      exact ⟨by tauto, ih h.2⟩

theorem typeCounts_loop_some (ts : List Transaction) :
    ∀ (acc : List (String × Nat)) (d : String) (m : Nat),
      alookup acc d = some m →
      alookup (ts.foldl (fun a t => bumpCount a t.type_description) acc) d =
        some (m + (ts.map Transaction.type_description).count d) := by
  induction ts with
  | nil =>
    intro acc d m h
    simp [h]
  | cons t ts ih =>
    intro acc d m h
    simp only [List.foldl_cons, List.map_cons]
    by_cases hd : t.type_description = d
    · have hstep : alookup (bumpCount acc t.type_description) d = some (m + 1) := by
        rw [hd, bumpCount_alookup_self, h]
        rfl
      rw [ih _ d (m + 1) hstep, List.count_cons]
      simp only [hd, if_pos rfl, beq_self_eq_true, if_true]
      exact congrArg some (by omega)
    · have hstep : alookup (bumpCount acc t.type_description) d = some m := by
        rw [bumpCount_alookup_other acc t.type_description d (fun hh => hd hh.symm)]
        exact h
      rw [ih _ d m hstep, List.count_cons]
      have : (t.type_description == d) = false := beq_eq_false_iff_ne.mpr hd
      simp [this]

theorem typeCounts_loop_none (ts : List Transaction) :
    ∀ (acc : List (String × Nat)) (d : String),
      alookup acc d = none →
      alookup (ts.foldl (fun a t => bumpCount a t.type_description) acc) d =
        if (ts.map Transaction.type_description).count d = 0 then none
        else some ((ts.map Transaction.type_description).count d) := by
  induction ts with
  | nil =>
    intro acc d h
    simp [h]
  | cons t ts ih =>
    intro acc d h
    simp only [List.foldl_cons, List.map_cons]
    by_cases hd : t.type_description = d
    · have hstep : alookup (bumpCount acc t.type_description) d = some 1 := by
        rw [hd, bumpCount_alookup_self, h]
        rfl
      rw [typeCounts_loop_some ts _ d 1 hstep, List.count_cons]
      simp only [hd, beq_self_eq_true, if_true]
      rw [if_neg (by omega)]
      exact congrArg some (by omega)
    · have hstep : alookup (bumpCount acc t.type_description) d = none := by
        rw [bumpCount_alookup_other acc t.type_description d (fun hh => hd hh.symm)]
        exact h
      rw [ih _ d hstep, List.count_cons]
      have : (t.type_description == d) = false := beq_eq_false_iff_ne.mpr hd
      simp [this]

theorem typeCounts_alookup (ts : List Transaction) (d : String) :
    alookup (typeCounts ts) d =
      if (ts.map Transaction.type_description).count d = 0 then none
      else some ((ts.map Transaction.type_description).count d) :=
  typeCounts_loop_none ts [] d rfl

theorem typeCounts_nodup_aux (ts : List Transaction) :
    ∀ acc : List (String × Nat), (acc.map Prod.fst).Nodup →
      ((ts.foldl (fun a t => bumpCount a t.type_description) acc).map Prod.fst).Nodup := by
  induction ts with
  | nil => intro acc h; simpa using h
  | cons t ts ih =>
    intro acc h
    simp only [List.foldl_cons]
    exact ih _ (nodup_keys_bumpCount acc t.type_description h)

theorem alookup_eq_none_iff [DecidableEq κ] (l : List (κ × α)) (c : κ) :
    alookup l c = none ↔ c ∉ l.map Prod.fst := by
  induction l with
  | nil => simp [alookup]
  | cons p rest ih =>
    obtain ⟨k, v⟩ := p
    simp only [alookup, List.map_cons, List.mem_cons, not_or]
    by_cases hk : k = c
    · subst hk
      simp
    · rw [if_neg hk, ih]
      constructor
      · intro h
        exact ⟨fun hh => hk hh.symm, h⟩
      · intro h
        exact h.2

theorem alookup_of_mem_nodup (l : List (String × Nat))
    (h : (l.map Prod.fst).Nodup) (d : String) (n : Nat) (hm : (d, n) ∈ l) :
    alookup l d = some n := by
  induction l with
  | nil => cases hm
  | cons p rest ih =>
    obtain ⟨k, v⟩ := p
    simp only [List.map_cons, List.nodup_cons] at h
    rcases List.mem_cons.mp hm with hm | hm
    · cases hm
      simp [alookup]
    · have hk : k ≠ d := by
        intro he
        subst he
        exact h.1 (List.mem_map.mpr ⟨(k, n), hm, rfl⟩)
      simp only [alookup, if_neg hk]
      exact ih h.2 hm

/-- C7 amended: the per-type summary of the multi-event message lists each
distinct `type_description` exactly once, but in ascending lexicographic
(code-point) order — Python's `sorted(...)` — not in first-seen order of the
input; each item's count is the number of events bearing that label, and the
rendered part is the bare label when the count is 1 (no count annotation)
and `"{count} {label}s"` (pluralized) when the count exceeds 1. -/
theorem summary_sorted_by_label (ts : List Transaction) :
    List.Sorted itemLe (sortedTypeCounts ts) ∧
    (sortedTypeCounts ts).Perm (typeCounts ts) ∧
    ((typeCounts ts).map Prod.fst).Nodup ∧
    (∀ d, d ∈ (typeCounts ts).map Prod.fst ↔
      d ∈ ts.map Transaction.type_description) ∧
    (∀ d n, (d, n) ∈ typeCounts ts →
      n = (ts.map Transaction.type_description).count d ∧ 0 < n) ∧
    summaryParts ts = (sortedTypeCounts ts).map
      (fun p => if p.2 = 1 then p.1 else toString p.2 ++ " " ++ p.1 ++ "s") := by
  have hnodup : ((typeCounts ts).map Prod.fst).Nodup :=
    typeCounts_nodup_aux ts [] (by simp)
  refine ⟨List.sorted_insertionSort itemLe _, List.perm_insertionSort itemLe _,
    hnodup, ?_, ?_, rfl⟩
  · intro d
    rw [← not_iff_not, ← alookup_eq_none_iff, typeCounts_alookup,
      ← List.count_eq_zero]
    by_cases h : (ts.map Transaction.type_description).count d = 0
    · rw [if_pos h]
      simp [h]
    · rw [if_neg h]
      simp [h]
  · intro d n hm
    have := alookup_of_mem_nodup (typeCounts ts) hnodup d n hm
    rw [typeCounts_alookup] at this
    by_cases h : (ts.map Transaction.type_description).count d = 0
    · rw [if_pos h] at this
      cases this
    · rw [if_neg h] at this
      have hn : n = (ts.map Transaction.type_description).count d :=
        (Option.some.injEq _ _).mp this.symm
      exact ⟨hn, by omega⟩

/-- C7 counterexample: for the input order Trade-then-Activated the
first-seen order of the distinct labels is `["Trade", "Activated"]`, yet the
rendered summary parts are `["Activated", "Trade"]` — alphabetical, not
first-seen — and each count-1 entry is the bare label with no count
annotation. -/
theorem summary_not_first_seen_order :
    (typeCounts [tradeT, activatedT]).map Prod.fst = ["Trade", "Activated"] ∧
    summaryParts [tradeT, activatedT] = ["Activated", "Trade"] ∧
    (["Activated", "Trade"] : List String) ≠ ["Trade", "Activated"] := by decide

/-! ## C1 — batching within the window -/

/-- C1 amended: for a recipient with a recorded last notification time AND
an existing non-empty pending buffer, every arrival whose timestamp is
within `batch_window` of that last notification is appended to the buffer
with nothing delivered; after any such sequence of arrivals no message has
gone out, the buffer holds the old events followed by all the new ones in
arrival order, the recorded notification time is untouched, and a single
drain (`get_and_clear_batch`, as the sweep-triggered flush performs) yields
exactly all of them at once. -/
theorem batching_requires_nonempty_pending (b : Batcher) (chatId last : Int)
    (pending0 : List Transaction) (arrivals : List (Int × Transaction))
    (hLast : alookup b.lastNotificationTime chatId = some last)
    (hPending : alookup b.pendingTransactions chatId = some pending0)
    (hNe : pending0 ≠ [])
    (hWin : ∀ a ∈ arrivals, a.1 - last ≤ b.batchWindowMinutes * 60) :
    (handleArrivals b chatId arrivals).2 = [] ∧
    alookup (handleArrivals b chatId arrivals).1.pendingTransactions chatId =
      some (pending0 ++ arrivals.map Prod.snd) ∧
    ((handleArrivals b chatId arrivals).1.getAndClearBatch chatId).1 =
      pending0 ++ arrivals.map Prod.snd ∧
    (handleArrivals b chatId arrivals).1.lastNotificationTime =
      b.lastNotificationTime := by
  induction arrivals generalizing b pending0 with
  | nil =>
    refine ⟨rfl, by simpa using hPending, ?_, rfl⟩
    unfold handleArrivals Batcher.getAndClearBatch
    rw [hPending]
    simp
  | cons a rest ih =>
    obtain ⟨now, t⟩ := a
    have hwin0 : now - last ≤ b.batchWindowMinutes * 60 := by
      have := hWin (now, t) (List.mem_cons_self _ _)
      simpa using this
    have hSB : b.shouldBatchNotification now chatId t = true := by
      unfold Batcher.shouldBatchNotification
      rw [hLast]
      dsimp only
      rw [if_neg (by omega), hPending]
      simpa using hNe
    have hstep : handleUserTransactionNotification b now chatId t =
        (b.addTransactionToBatch chatId t, none) := by
      unfold handleUserTransactionNotification
      rw [hSB]
      simp
    have hLast1 : alookup (b.addTransactionToBatch chatId t).lastNotificationTime
        chatId = some last := hLast
    have hPend1 : alookup (b.addTransactionToBatch chatId t).pendingTransactions
        chatId = some (pending0 ++ [t]) := by
      unfold Batcher.addTransactionToBatch
      simp only
      rw [hPending, alookup_aset_self]
      rfl
    have hNe1 : pending0 ++ [t] ≠ [] := by simp
    have hWin1 : ∀ x ∈ rest,
        x.1 - last ≤ (b.addTransactionToBatch chatId t).batchWindowMinutes * 60 :=
      fun x hx => hWin x (List.mem_cons_of_mem _ hx)
    obtain ⟨h1, h2, h3, h4⟩ :=
      ih (b.addTransactionToBatch chatId t) (pending0 ++ [t]) hLast1 hPend1 hNe1 hWin1
    have hassoc : (pending0 ++ [t]) ++ rest.map Prod.snd =
        pending0 ++ ((now, t) :: rest).map Prod.snd := by
      simp
    refine ⟨?_, ?_, ?_, ?_⟩
    · show (handleArrivals b chatId ((now, t) :: rest)).2 = []
      unfold handleArrivals
      rw [hstep]
      simpa using h1
    · show alookup (handleArrivals b chatId ((now, t) :: rest)).1.pendingTransactions
          chatId = _
      unfold handleArrivals
      rw [hstep]
      simp only
      rw [← hassoc]
      exact h2
    · unfold handleArrivals
      rw [hstep]
      simp only
      rw [← hassoc]
      exact h3
    · unfold handleArrivals
      rw [hstep]
      simp only
      exact h4

/-- The state of the C1 witness: chat 7 flushed at `t = 0` and already has
one pending transaction; window 10 minutes. -/
def batchingWitnessB : Batcher :=
  { batchWindowMinutes := 10,
    pendingTransactions := [(7, [tradeT])],
    lastNotificationTime := [(7, 0)] }

/-- C1 amended, witness: two arrivals at 100 s and 200 s (inside the 600 s
window) are both buffered, nothing is sent, and one drain returns all three
transactions. -/
theorem batching_requires_nonempty_pending_witness :
    (handleArrivals batchingWitnessB 7 [(100, activatedT), (200, statusT)]).2 = [] ∧
    alookup (handleArrivals batchingWitnessB 7
        [(100, activatedT), (200, statusT)]).1.pendingTransactions 7 =
      some ([tradeT] ++ [((100 : Int), activatedT), (200, statusT)].map Prod.snd) ∧
    ((handleArrivals batchingWitnessB 7
        [(100, activatedT), (200, statusT)]).1.getAndClearBatch 7).1 =
      [tradeT] ++ [((100 : Int), activatedT), (200, statusT)].map Prod.snd ∧
    (handleArrivals batchingWitnessB 7
        [(100, activatedT), (200, statusT)]).1.lastNotificationTime =
      batchingWitnessB.lastNotificationTime :=
  batching_requires_nonempty_pending batchingWitnessB 7 0 [tradeT]
    [(100, activatedT), (200, statusT)] rfl rfl (by decide) (by decide)

/-- The state of the C1 counterexample: chat 7 has a recorded last flush at
`t = 100` s and an empty pending buffer (the state the running system is in
right after any flush). -/
def emptyPendingB : Batcher :=
  { batchWindowMinutes := 10,
    pendingTransactions := [],
    lastNotificationTime := [(7, 100)] }

/-- C1 counterexample: a transaction arriving at `t = 160` s — 60 s after
the recorded last flush, well inside the 600 s batch window — is NOT
appended to the pending buffer and IS delivered immediately, because
`should_batch_notification` additionally demands a non-empty pending
buffer.  This refutes the claim that every event within `batch_window` of
`last_flush_at` is appended and not delivered. -/
theorem within_window_event_sent_immediately :
    alookup emptyPendingB.lastNotificationTime 7 = some 100 ∧
    ((160 : Int) - 100 ≤ emptyPendingB.batchWindowMinutes * 60) ∧
    (handleUserTransactionNotification emptyPendingB 160 7 tradeT).2 =
      some [tradeT] ∧
    alookup (handleUserTransactionNotification emptyPendingB 160 7
        tradeT).1.pendingTransactions 7 = none := by decide

end MarinersBot
